import Mathlib

/-!
Shallow embedding of the routing-and-dialing core (`chain.go` of the gost
repository): the `Chain` data model, route resolution (`selectRoute`),
connection building (`getConn`), and the retrying entry points
(`Dial`, `Conn`).

External collaborators (a node's `Client` with `Dial`/`Handshake`/`Connect`,
a `NodeGroup`'s `Next` selection policy, `net.DialTimeout`) are not part of
`chain.go`; following the specification's interface contracts they are
modelled as an `Oracle` of outcome functions, and every observable side
effect (hop contacted, health mark, connection close, direct net dial) is
recorded in an explicit event trace.  Within one attempt a single physical
connection is dialed; handshaking and connect-through layer over the same
physical stream, so connections are identified by the raw connection id and
`Close` closes that raw stream — matching what "closed state" means for the
layered `net.Conn` values of the Go code.
-/

namespace Gost

/-!
Mirror of the Go data model.  `Node` is gost's hop descriptor (id for
identity, opaque address, `Multiplex()` capability flag, dial options);
`DialOption.chainOpt` is `ChainDialOption`, which embeds a resolved chain as
a dial dependency, hence the mutual recursion; `Chain.mk isRoute Retries
nodeGroups` mirrors the `Chain` struct, a node group being its ordered
candidate list.  Addresses are opaque in `chain.go` (never inspected, only
passed through), so they are modelled as `Nat`.
-/
mutual
inductive Node where
  | mk : Nat → Nat → Bool → List DialOption → Node
inductive DialOption where
  | chainOpt : Chain → DialOption
  | plainOpt : Nat → DialOption
inductive Chain where
  | mk : Bool → Int → List (List Node) → Chain
end

def Node.id : Node → Nat
  | .mk i _ _ _ => i

def Node.addr : Node → Nat
  | .mk _ a _ _ => a

def Node.multiplex : Node → Bool
  | .mk _ _ m _ => m

def Node.dialOptions : Node → List DialOption
  | .mk _ _ _ ds => ds

/-- `node.DialOptions = append(node.DialOptions, opt)` on the value copy
returned by `group.Next()`. -/
def Node.appendOption : Node → DialOption → Node
  | .mk i a m ds, opt => .mk i a m (ds ++ [opt])

/-- The zero value `Node{}` returned by `LastNode` on an empty chain. -/
def Node.zero : Node := .mk 0 0 false []

def Chain.isRoute : Chain → Bool
  | .mk r _ _ => r

def Chain.retries : Chain → Int
  | .mk _ r _ => r

def Chain.nodeGroups : Chain → List (List Node)
  | .mk _ _ gs => gs

/-- `newRoute()` followed by `route.Retries = r`: an empty chain with the
`isRoute` marker set. -/
def newRoute (r : Int) : Chain := .mk true r []

/-- `Chain.AddNode` (single-node form; the Go variadic is a fold of this):
wraps the node in a fresh singleton group and appends it. -/
def Chain.AddNode : Chain → Node → Chain
  | .mk ir r gs, n => .mk ir r (gs ++ [[n]])

/-- `Chain.Nodes`: first node of each group, skipping empty groups. -/
def Chain.Nodes (c : Chain) : List Node :=
  c.nodeGroups.filterMap List.head?

/-- `Chain.IsEmpty`: no node groups.  (A nil `*Chain` also counts as empty
in Go; chains are modelled as values, and a nil chain behaves as the
zero-group value everywhere it is dereferenceable.) -/
def Chain.IsEmpty (c : Chain) : Bool :=
  c.nodeGroups.isEmpty

/-- `Chain.LastNode`: zero node if empty, else the first node of the last
group (a value clone).  Go panics when the last group is empty; that
unreachable-by-construction case is modelled as the zero node. -/
def Chain.LastNode (c : Chain) : Node :=
  match c.nodeGroups.getLast? with
  | none => Node.zero
  | some g =>
    match g.head? with
    | none => Node.zero
    | some n => n

/-- Errors visible to this core: the package's own distinguished
`ErrEmptyChain`, opaque collaborator errors (`ext`), and markers for the
two Go paths that would dereference nil / index out of range (unreachable
for well-formed chains, kept to make the model total). -/
inductive GErr where
  | emptyChain
  | ext (code : Nat)
  | panicNoNodes
  | panicNilConn
  deriving DecidableEq, Repr

/-- Observable side effects, in program order: `next g` is `group.Next()`
on the group at position `g`; `dial`/`handshake` are the node client calls;
`connect p a` is `preNode.Client.Connect(conn, addr)`; `close k` closes the
physical connection `k`; `markDead`/`resetDead` are the health mutations;
`netDial a t` is the direct `net.DialTimeout` with timeout `t`. -/
inductive Event where
  | next (g : Nat)
  | dial (nid : Nat)
  | handshake (nid : Nat)
  | connect (preId : Nat) (addr : Nat)
  | close (cid : Nat)
  | markDead (nid : Nat)
  | resetDead (nid : Nat)
  | netDial (addr : Nat) (timeout : Nat)
  deriving DecidableEq, Repr

/-- Modelled from the spec: the external collaborator contracts.  `next`
is the Hop Group's `selectNext` (group position and candidate list to
selected hop or error — its cursor state is abstracted into the function);
`dial`, `handshake`, `connect` give the outcome of the corresponding Hop
capability call (`none` = success); `netDial` is the bare network dial. -/
structure Oracle where
  next : Nat → List Node → Except GErr Node
  dial : Nat → Option GErr
  handshake : Nat → Option GErr
  connect : Nat → Nat → Option GErr
  netDial : Nat → Option GErr

/-- Modelled from the spec: the fixed default dial timeout constant passed
to the direct-dial fallback (its numeric value is opaque to this core). -/
def DialTimeout : Nat := 30

/-- Result of `selectRoute`: the Go `(route *Chain, err error)` pair plus
the trace of selection calls made. -/
structure RouteRes where
  route : Option Chain
  err : Option GErr
  events : List Event

/-- Result of the connection-building operations: the Go
`(conn net.Conn, err error)` pair (connections by raw id) plus the trace. -/
structure ConnRes where
  conn : Option Nat
  err : Option GErr
  events : List Event
  deriving Repr

/-- The loop body of `Chain.selectRoute`: fold over the remaining groups,
`idx` the position of the head group, `acc` the accumulator route, `rs` the
chain's retry budget.  On a multiplexing selection the accumulator built so
far is appended to the node's dial options as `ChainDialOption(route)` and
a fresh accumulator is started; the node itself is then added to the
current (possibly fresh) accumulator. -/
def selectRouteLoop (o : Oracle) (rs : Int) : Chain → Nat → List (List Node) → RouteRes
  | acc, _, [] => ⟨some acc, none, []⟩
  | acc, idx, g :: gs =>
    match o.next idx g with
    | .error e => ⟨none, some e, [Event.next idx]⟩
    | .ok node =>
      let node2 := if node.multiplex then node.appendOption (DialOption.chainOpt acc) else node
      let acc2 := if node.multiplex then newRoute rs else acc
      let r := selectRouteLoop o rs (acc2.AddNode node2) (idx + 1) gs
      ⟨r.route, r.err, Event.next idx :: r.events⟩

/-- `Chain.selectRoute`: identity on a chain already marked as a resolved
route, otherwise the selection fold starting from an empty route that
inherits the chain's retry budget. -/
def Chain.selectRoute (o : Oracle) (c : Chain) : RouteRes :=
  if c.isRoute then ⟨some c, none, []⟩
  else selectRouteLoop o c.retries (newRoute c.retries) 0 c.nodeGroups

/-- The `for _, node := range nodes[1:]` loop of `Chain.getConn`: `pre` is
the previous hop, `cid` the raw connection.  Connect-through failure closes
the connection and marks the hop dead; handshake failure likewise; success
resets the hop's health and continues. -/
def connLoop (o : Oracle) (cid : Nat) : Node → List Node → ConnRes
  | _, [] => ⟨some cid, none, []⟩
  | pre, node :: rest =>
    match o.connect pre.id node.addr with
    | some e =>
      ⟨none, some e, [Event.connect pre.id node.addr, Event.close cid, Event.markDead node.id]⟩
    | none =>
      match o.handshake node.id with
      | some e =>
        ⟨none, some e, [Event.connect pre.id node.addr, Event.handshake node.id,
                        Event.close cid, Event.markDead node.id]⟩
      | none =>
        let r := connLoop o cid node rest
        ⟨r.conn, r.err,
         Event.connect pre.id node.addr :: Event.handshake node.id ::
           Event.resetDead node.id :: r.events⟩

/-- `Chain.getConn` with `cid` the id assigned to the physical connection
dialed at the first hop.  Empty chain yields `ErrEmptyChain`; first-hop
dial or handshake failure marks the hop dead and returns (note: no close on
the first-hop handshake failure path); then the connect-through loop. -/
def Chain.getConn (o : Oracle) (cid : Nat) (c : Chain) : ConnRes :=
  if c.IsEmpty then ⟨none, some GErr.emptyChain, []⟩
  else
    match c.Nodes with
    | [] => ⟨none, some GErr.panicNoNodes, []⟩
    | node :: rest =>
      match o.dial node.id with
      | some e => ⟨none, some e, [Event.dial node.id, Event.markDead node.id]⟩
      | none =>
        match o.handshake node.id with
        | some e =>
          ⟨none, some e, [Event.dial node.id, Event.handshake node.id, Event.markDead node.id]⟩
        | none =>
          let r := connLoop o cid node rest
          ⟨r.conn, r.err,
           Event.dial node.id :: Event.handshake node.id ::
             Event.resetDead node.id :: r.events⟩

/-- `Chain.dial` (one attempt of `Dial`): resolve a route, build its
connection, then connect-through from the route's last node to the target
address, closing the built connection if that final step fails. -/
def Chain.dialOnce (o : Oracle) (cid : Nat) (c : Chain) (addr : Nat) : ConnRes :=
  let sr := c.selectRoute o
  match sr.err with
  | some e => ⟨none, some e, sr.events⟩
  | none =>
    let route := sr.route.getD (Chain.mk false 0 [])
    let g := route.getConn o cid
    match g.err with
    | some e => ⟨none, some e, sr.events ++ g.events⟩
    | none =>
      match g.conn with
      | none => ⟨none, some GErr.panicNilConn, sr.events ++ g.events⟩
      | some k =>
        let ln := route.LastNode
        match o.connect ln.id addr with
        | some e =>
          ⟨none, some e, sr.events ++ g.events ++ [Event.connect ln.id addr, Event.close k]⟩
        | none =>
          ⟨some k, none, sr.events ++ g.events ++ [Event.connect ln.id addr]⟩

/-- One attempt of `Conn`: resolve a route and build its connection (no
final connect-through). -/
def Chain.connOnce (o : Oracle) (cid : Nat) (c : Chain) : ConnRes :=
  let sr := c.selectRoute o
  match sr.err with
  | some e => ⟨none, some e, sr.events⟩
  | none =>
    let route := sr.route.getD (Chain.mk false 0 [])
    let g := route.getConn o cid
    ⟨g.conn, g.err, sr.events ++ g.events⟩

/-- The Go retry loop `for i := 0; i < c.Retries+1; i++` with named returns
`(conn, err)` initialised to `(nil, nil)` and `break` on the first attempt
whose error is nil: `f i` is attempt `i`, `fuel` the remaining iteration
count.  Zero fuel returns the initial `(nil, nil)`. -/
def retryLoop (f : Nat → ConnRes) : Nat → Nat → ConnRes
  | 0, _ => ⟨none, none, []⟩
  | fuel + 1, i =>
    match fuel, (f i).err with
    | 0, _ => f i
    | _ + 1, none => f i
    | m + 1, some _ =>
      ⟨(retryLoop f (m + 1) (i + 1)).conn, (retryLoop f (m + 1) (i + 1)).err,
       (f i).events ++ (retryLoop f (m + 1) (i + 1)).events⟩

/-- Attempt `i` of `Dial`: the collaborators are consulted as of attempt
`i` (`os i`) and the attempt's physical connection gets the fresh id `i`. -/
def Chain.dialAttempt (os : Nat → Oracle) (c : Chain) (addr : Nat) (i : Nat) : ConnRes :=
  c.dialOnce (os i) i addr

/-- Attempt `i` of `Conn`. -/
def Chain.connAttempt (os : Nat → Oracle) (c : Chain) (i : Nat) : ConnRes :=
  c.connOnce (os i) i

/-- `Chain.Dial`: direct `net.DialTimeout` (one call, conn id 0, the fixed
default timeout) when the chain is empty, otherwise up to `Retries + 1`
attempts of `dial`.  `Int.toNat` clamps a non-positive bound to zero
iterations, exactly as the Go `for` condition does. -/
def Chain.Dial (os : Nat → Oracle) (c : Chain) (addr : Nat) : ConnRes :=
  if c.IsEmpty then
    match (os 0).netDial addr with
    | some e => ⟨none, some e, [Event.netDial addr DialTimeout]⟩
    | none => ⟨some 0, none, [Event.netDial addr DialTimeout]⟩
  else
    retryLoop (c.dialAttempt os addr) (c.retries + 1).toNat 0

/-- `Chain.Conn`: up to `Retries + 1` attempts of resolve-then-build (the
`continue`/`break` loop is `retryLoop`: a failed attempt keeps the last
error, a successful one returns immediately, and `conn` is nil before the
first success). -/
def Chain.Conn (os : Nat → Oracle) (c : Chain) : ConnRes :=
  retryLoop (c.connAttempt os) (c.retries + 1).toNat 0

/-- Concatenation of the traces of attempts `i, i+1, …, i+fuel-1`. -/
def attemptTraces (f : Nat → ConnRes) : Nat → Nat → List Event
  | 0, _ => []
  | m + 1, i => (f i).events ++ attemptTraces f m (i + 1)

/-- What a single event says about hop `nid`'s health. -/
def healthStep (nid : Nat) : Event → Option Bool
  | Event.markDead i => if i = nid then some true else none
  | Event.resetDead i => if i = nid then some false else none
  | _ => none

/-- Final health state of hop `nid` after a trace: `some true` if the last
mark/reset event touching it marked it dead, `some false` if it reset it,
`none` if the trace never touched it (later events take precedence). -/
def healthAfter (evs : List Event) (nid : Nat) : Option Bool :=
  evs.foldr (fun e s => s.orElse fun _ => healthStep nid e) none

/-- Whether an event contacts or mentions the node `n` (dials, handshakes
or health-marks it, or connect-throughs from it or to its address). -/
def Event.touches (e : Event) (n : Node) : Bool :=
  match e with
  | Event.dial i => i == n.id
  | Event.handshake i => i == n.id
  | Event.markDead i => i == n.id
  | Event.resetDead i => i == n.id
  | Event.connect p a => p == n.id || a == n.addr
  | Event.close _ => false
  | Event.next _ => false
  | Event.netDial a _ => a == n.addr

def Event.isClose : Event → Bool
  | Event.close _ => true
  | _ => false

/-- Every group of the chain is a singleton (exactly one hop). -/
def singletonGroups (c : Chain) : Bool :=
  c.nodeGroups.all fun g => g.length == 1

/-- The connect-through/handshake outcomes along `pre :: ns` all succeed. -/
def pathOK (o : Oracle) : Node → List Node → Bool
  | _, [] => true
  | pre, n :: ns =>
    (o.connect pre.id n.addr).isNone && (o.handshake n.id).isNone && pathOK o n ns

/-- Trace produced by a fully successful pass of the connect-through loop. -/
def okEvents : Node → List Node → List Event
  | _, [] => []
  | pre, n :: ns =>
    Event.connect pre.id n.addr :: Event.handshake n.id :: Event.resetDead n.id ::
      okEvents n ns

/-- The last node of `l`, or `pre` when `l` is empty: the `preNode` after
the loop has consumed `l`. -/
def lastD : Node → List Node → Node
  | pre, [] => pre
  | _, n :: ns => lastD n ns

/-!
Concrete collaborators and chains used to exercise the model on the
scenarios of the specification.
-/

/-- Selection policy that always picks the first candidate of a group. -/
def firstNext : Nat → List Node → Except GErr Node := fun _ g =>
  match g.head? with
  | some n => Except.ok n
  | none => Except.error (GErr.ext 0)

/-- Collaborators for which every operation succeeds, selecting the first
candidate of each group. -/
def oAllOK : Oracle :=
  ⟨firstNext, fun _ => none, fun _ => none, fun _ _ => none, fun _ => none⟩

/-- Collaborators for which every handshake fails (error code 5). -/
def oHsFail : Oracle :=
  ⟨firstNext, fun _ => none, fun _ => some (GErr.ext 5), fun _ _ => none, fun _ => none⟩

/-- A multiplexing-capable hop. -/
def hopA : Node := Node.mk 1 10 true []

/-- A plain (non-multiplexing) hop. -/
def hopB : Node := Node.mk 2 20 false []

/-- The two-group chain `[G0] = [{hopA}]`, `[G1] = [{hopB}]` with `hopA`
multiplexing. -/
def cMux : Chain := Chain.mk false 0 [[hopA], [hopB]]

/-- A resolved single-hop route. -/
def rSingle : Chain := Chain.mk true 0 [[Node.mk 1 10 false []]]

/-- A resolved four-hop route (ids 1–4, addresses 10–40). -/
def rFour : Chain :=
  Chain.mk true 0 [[Node.mk 1 10 false []], [Node.mk 2 20 false []],
    [Node.mk 3 30 false []], [Node.mk 4 40 false []]]

/-- Collaborators for which exactly the connect-through from hop 2 to
address 30 fails (error code 7). -/
def oConnFail : Oracle :=
  ⟨firstNext, fun _ => none, fun _ => none,
   fun p a => if p == 2 && a == 30 then some (GErr.ext 7) else none,
   fun _ => none⟩

/-- Attempt-indexed collaborators: the first-hop dial fails on attempts 0
and 1 (error codes 100 and 101) and succeeds from attempt 2 on. -/
def osThird : Nat → Oracle := fun i =>
  ⟨firstNext, fun _ => if i < 2 then some (GErr.ext (100 + i)) else none,
   fun _ => none, fun _ _ => none, fun _ => none⟩

/-- Attempt-indexed collaborators whose first-hop dial always fails, with
an error code recording the attempt number. -/
def osFailAll : Nat → Oracle := fun i =>
  ⟨firstNext, fun _ => some (GErr.ext (100 + i)),
   fun _ => none, fun _ _ => none, fun _ => none⟩

/-- Constant attempt-indexed view of all-successful collaborators. -/
def osAllOK : Nat → Oracle := fun _ => oAllOK

/-- An unresolved single-group chain with retry budget 2. -/
def cRetry : Chain := Chain.mk false 2 [[Node.mk 1 10 false []]]

/-- An unresolved single-group chain with negative retry budget. -/
def cNeg : Chain := Chain.mk false (-1) [[Node.mk 1 10 false []]]

/-- An empty (zero-group) chain with retry budget 3. -/
def cEmpty : Chain := Chain.mk false 3 []

/-!
Helper lemmas about route resolution.
-/

lemma AddNode_isRoute (c : Chain) (n : Node) : (c.AddNode n).isRoute = c.isRoute := by
  cases c
  rfl

lemma AddNode_singleton (c : Chain) (n : Node) (h : singletonGroups c = true) :
    singletonGroups (c.AddNode n) = true := by
  cases c with
  | mk ir r gs =>
    simp only [singletonGroups, Chain.AddNode, Chain.nodeGroups, List.all_append] at h ⊢
    simp [h]

lemma selectRouteLoop_route_inv (o : Oracle) (rs : Int) :
    ∀ gs acc idx rt, (selectRouteLoop o rs acc idx gs).route = some rt →
      acc.isRoute = true → singletonGroups acc = true →
      rt.isRoute = true ∧ singletonGroups rt = true := by
  intro gs
  induction gs with
  | nil =>
    intro acc idx rt h h1 h2
    simp only [selectRouteLoop, Option.some.injEq] at h
    subst h
    exact ⟨h1, h2⟩
  | cons g gs ih =>
    intro acc idx rt h h1 h2
    simp only [selectRouteLoop] at h
    cases hn : o.next idx g with
    | error e => rw [hn] at h; simp at h
    | ok node =>
      rw [hn] at h
      simp only at h
      refine ih _ (idx + 1) rt h ?_ ?_
      · by_cases hm : node.multiplex = true
        · simp only [hm, if_true]
          rw [AddNode_isRoute]
          rfl
        · simp only [Bool.not_eq_true] at hm
          simp only [hm, Bool.false_eq_true, if_false]
          rw [AddNode_isRoute]
          exact h1
      · by_cases hm : node.multiplex = true
        · simp only [hm, if_true]
          exact AddNode_singleton _ _ rfl
        · simp only [Bool.not_eq_true] at hm
          simp only [hm, Bool.false_eq_true, if_false]
          exact AddNode_singleton _ _ h2

lemma selectRouteLoop_next_ge (o : Oracle) (rs : Int) :
    ∀ gs acc idx g, Event.next g ∈ (selectRouteLoop o rs acc idx gs).events → idx ≤ g := by
  intro gs
  induction gs with
  | nil => intro acc idx g h; simp [selectRouteLoop] at h
  | cons gr gs ih =>
    intro acc idx g h
    simp only [selectRouteLoop] at h
    cases hn : o.next idx gr with
    | error e =>
      rw [hn] at h
      simp only [List.mem_singleton, Event.next.injEq] at h
      omega
    | ok node =>
      rw [hn] at h
      simp only [List.mem_cons, Event.next.injEq] at h
      rcases h with h | h
      · omega
      · have := ih _ (idx + 1) g h
        omega

lemma selectRouteLoop_count_head (o : Oracle) (rs : Int) (g : List Node)
    (gs : List (List Node)) (acc : Chain) (idx : Nat) :
    ((selectRouteLoop o rs acc idx (g :: gs)).events).count (Event.next idx) = 1 := by
  simp only [selectRouteLoop]
  cases hn : o.next idx g with
  | error e => simp [List.count_singleton]
  | ok node =>
    simp only [List.count_cons_self]
    have hnot : Event.next idx ∉ (selectRouteLoop o rs
        ((if node.multiplex then newRoute rs else acc).AddNode
          (if node.multiplex then node.appendOption (DialOption.chainOpt acc) else node))
        (idx + 1) gs).events := by
      intro hmem
      have := selectRouteLoop_next_ge o rs gs _ (idx + 1) idx hmem
      omega
    rw [List.count_eq_zero.mpr hnot]

lemma selectRoute_resolved (o : Oracle) (c : Chain) (h : c.isRoute = true) :
    c.selectRoute o = ⟨some c, none, []⟩ := by
  simp [Chain.selectRoute, h]

lemma selectRoute_count_head (o : Oracle) (c : Chain) (g : List Node)
    (gs : List (List Node)) (h1 : c.isRoute = false) (h2 : c.nodeGroups = g :: gs) :
    ((c.selectRoute o).events).count (Event.next 0) = 1 := by
  simp only [Chain.selectRoute, h1, Bool.false_eq_true, if_false, h2]
  exact selectRouteLoop_count_head o c.retries g gs (newRoute c.retries) 0

/-!
Helper lemmas about the connection-building loop.
-/

lemma connLoop_err_iff_conn (o : Oracle) (cid : Nat) :
    ∀ pre ns, ((connLoop o cid pre ns).err = none → (connLoop o cid pre ns).conn = some cid) ∧
      ((connLoop o cid pre ns).err ≠ none → (connLoop o cid pre ns).conn = none) := by
  intro pre ns
  induction ns generalizing pre with
  | nil => simp [connLoop]
  | cons n ns ih =>
    simp only [connLoop]
    cases hc : o.connect pre.id n.addr with
    | some e => simp
    | none =>
      cases hh : o.handshake n.id with
      | some e => simp
      | none => exact ih n

lemma connLoop_err_close (o : Oracle) (cid : Nat) :
    ∀ pre ns, (connLoop o cid pre ns).err ≠ none →
      Event.close cid ∈ (connLoop o cid pre ns).events := by
  intro pre ns
  induction ns generalizing pre with
  | nil => simp [connLoop]
  | cons n ns ih =>
    intro herr
    simp only [connLoop] at herr ⊢
    cases hc : o.connect pre.id n.addr with
    | some e => simp
    | none =>
      rw [hc] at herr
      cases hh : o.handshake n.id with
      | some e => simp
      | none =>
        rw [hh] at herr
        simp only [List.mem_cons]
        exact Or.inr (Or.inr (Or.inr (ih n herr)))

lemma connLoop_no_next (o : Oracle) (cid : Nat) :
    ∀ pre ns g, Event.next g ∉ (connLoop o cid pre ns).events := by
  intro pre ns
  induction ns generalizing pre with
  | nil => simp [connLoop]
  | cons n ns ih =>
    intro g
    simp only [connLoop]
    cases hc : o.connect pre.id n.addr with
    | some e => simp
    | none =>
      cases hh : o.handshake n.id with
      | some e => simp
      | none =>
        simp only [List.mem_cons, not_or]
        exact ⟨by simp, by simp, by simp, ih n g⟩

lemma connLoop_prefix (o : Oracle) (cid : Nat) :
    ∀ good pre rest, pathOK o pre good = true →
      connLoop o cid pre (good ++ rest) =
        ⟨(connLoop o cid (lastD pre good) rest).conn,
         (connLoop o cid (lastD pre good) rest).err,
         okEvents pre good ++ (connLoop o cid (lastD pre good) rest).events⟩ := by
  intro good
  induction good with
  | nil =>
    intro pre rest _
    simp [lastD, okEvents]
  | cons n ns ih =>
    intro pre rest h
    simp only [pathOK, Bool.and_eq_true, Option.isNone_iff_eq_none] at h
    obtain ⟨⟨hc, hh⟩, hpath⟩ := h
    have hrec := ih n rest hpath
    simp only [List.cons_append, connLoop, hc, hh, lastD, okEvents, List.append_eq] at hrec ⊢
    rw [hrec]

/-!
Helper lemmas about `getConn`.
-/

lemma Nodes_ne_nil_not_empty (c : Chain) (h : c.Nodes ≠ []) : c.IsEmpty = false := by
  cases c with
  | mk ir r gs =>
    cases gs with
    | nil => exact absurd rfl h
    | cons g gs => rfl

lemma getConn_firstOK (o : Oracle) (cid : Nat) (c : Chain) (n : Node) (rest : List Node)
    (hn : c.Nodes = n :: rest) (hd : o.dial n.id = none) (hh : o.handshake n.id = none) :
    c.getConn o cid =
      ⟨(connLoop o cid n rest).conn, (connLoop o cid n rest).err,
       Event.dial n.id :: Event.handshake n.id :: Event.resetDead n.id ::
         (connLoop o cid n rest).events⟩ := by
  have hne : c.IsEmpty = false := Nodes_ne_nil_not_empty c (by simp [hn])
  simp only [Chain.getConn, hne, Bool.false_eq_true, if_false, hn, hd, hh]

lemma getConn_err_iff_conn (o : Oracle) (cid : Nat) (c : Chain) :
    ((c.getConn o cid).err = none → (c.getConn o cid).conn = some cid) ∧
      ((c.getConn o cid).err ≠ none → (c.getConn o cid).conn = none) := by
  by_cases he : c.IsEmpty = true
  · simp [Chain.getConn, he]
  · have he' : c.IsEmpty = false := by simpa using he
    cases hn : c.Nodes with
    | nil => simp [Chain.getConn, he', hn]
    | cons n rest =>
      cases hd : o.dial n.id with
      | some e => simp [Chain.getConn, he', hn, hd]
      | none =>
        cases hh : o.handshake n.id with
        | some e => simp [Chain.getConn, he', hn, hd, hh]
        | none =>
          simp only [Chain.getConn, he', hn, hd, hh, Bool.false_eq_true, if_false]
          exact connLoop_err_iff_conn o cid n rest

lemma getConn_no_next (o : Oracle) (cid : Nat) (c : Chain) (g : Nat) :
    Event.next g ∉ (c.getConn o cid).events := by
  by_cases he : c.IsEmpty = true
  · simp [Chain.getConn, he]
  · have he' : c.IsEmpty = false := by simpa using he
    cases hn : c.Nodes with
    | nil => simp [Chain.getConn, he', hn]
    | cons n rest =>
      cases hd : o.dial n.id with
      | some e => simp [Chain.getConn, he', hn, hd]
      | none =>
        cases hh : o.handshake n.id with
        | some e => simp [Chain.getConn, he', hn, hd, hh]
        | none =>
          simp only [Chain.getConn, he', hn, hd, hh, Bool.false_eq_true, if_false,
            List.mem_cons, not_or]
          exact ⟨by simp, by simp, by simp, connLoop_no_next o cid n rest g⟩

/-!
Helper lemmas about single attempts (`dialOnce`, `connOnce`).
-/

lemma dialOnce_err_conn (o : Oracle) (cid : Nat) (c : Chain) (addr : Nat)
    (h : (c.dialOnce o cid addr).err ≠ none) : (c.dialOnce o cid addr).conn = none := by
  simp only [Chain.dialOnce] at h ⊢
  cases hsr : (c.selectRoute o).err with
  | some e => simp [hsr]
  | none =>
    rw [hsr] at h
    simp only at h ⊢
    cases hg : (((c.selectRoute o).route.getD (Chain.mk false 0 [])).getConn o cid).err with
    | some e => simp [hg]
    | none =>
      rw [hg] at h
      simp only at h ⊢
      cases hc : (((c.selectRoute o).route.getD (Chain.mk false 0 [])).getConn o cid).conn with
      | none => simp [hc]
      | some k =>
        rw [hc] at h
        simp only at h ⊢
        cases hcn : o.connect ((c.selectRoute o).route.getD (Chain.mk false 0 [])).LastNode.id addr with
        | some e => simp [hcn]
        | none => rw [hcn] at h; simp at h

lemma connOnce_err_conn (o : Oracle) (cid : Nat) (c : Chain)
    (h : (c.connOnce o cid).err ≠ none) : (c.connOnce o cid).conn = none := by
  simp only [Chain.connOnce] at h ⊢
  cases hsr : (c.selectRoute o).err with
  | some e => simp [hsr]
  | none =>
    rw [hsr] at h
    simp only at h ⊢
    exact (getConn_err_iff_conn o cid _).2 h

lemma dialOnce_count_next0 (o : Oracle) (cid : Nat) (c : Chain) (addr : Nat)
    (g : List Node) (gs : List (List Node))
    (h1 : c.isRoute = false) (h2 : c.nodeGroups = g :: gs) :
    ((c.dialOnce o cid addr).events).count (Event.next 0) = 1 := by
  have hsr := selectRoute_count_head o c g gs h1 h2
  have hgc : ∀ route : Chain, ((route.getConn o cid).events).count (Event.next 0) = 0 :=
    fun route => List.count_eq_zero.mpr (getConn_no_next o cid route 0)
  simp only [Chain.dialOnce]
  cases hse : (c.selectRoute o).err with
  | some e => simpa [hse] using hsr
  | none =>
    simp only
    cases hg : (((c.selectRoute o).route.getD (Chain.mk false 0 [])).getConn o cid).err with
    | some e =>
      simp only [List.count_append]
      rw [hsr, hgc]
    | none =>
      simp only
      cases hc : (((c.selectRoute o).route.getD (Chain.mk false 0 [])).getConn o cid).conn with
      | none =>
        simp only [List.count_append]
        rw [hsr, hgc]
      | some k =>
        simp only
        cases hcn : o.connect ((c.selectRoute o).route.getD
            (Chain.mk false 0 [])).LastNode.id addr with
        | some e =>
          simp only [List.count_append]
          rw [hsr, hgc]
          simp [List.count_cons, List.count_nil]
        | none =>
          simp only [List.count_append]
          rw [hsr, hgc]
          simp [List.count_cons, List.count_nil]

lemma connOnce_count_next0 (o : Oracle) (cid : Nat) (c : Chain)
    (g : List Node) (gs : List (List Node))
    (h1 : c.isRoute = false) (h2 : c.nodeGroups = g :: gs) :
    ((c.connOnce o cid).events).count (Event.next 0) = 1 := by
  have hsr := selectRoute_count_head o c g gs h1 h2
  have hgc : ∀ route : Chain, ((route.getConn o cid).events).count (Event.next 0) = 0 :=
    fun route => List.count_eq_zero.mpr (getConn_no_next o cid route 0)
  simp only [Chain.connOnce]
  cases hse : (c.selectRoute o).err with
  | some e => simpa [hse] using hsr
  | none =>
    simp only [List.count_append]
    rw [hsr, hgc]

/-!
Helper lemmas about the retry loop.
-/

lemma retryLoop_one (f : Nat → ConnRes) (i : Nat) : retryLoop f 1 i = f i := rfl

lemma retryLoop_succ_ok (f : Nat → ConnRes) (m i : Nat) (h : (f i).err = none) :
    retryLoop f (m + 1 + 1) i = f i := by
  rw [retryLoop.eq_def]
  split
  · omega
  · rename_i fuel heq
    have hf : fuel = m + 1 := by omega
    subst hf
    rw [h]

lemma retryLoop_succ_fail (f : Nat → ConnRes) (m i : Nat) (e : GErr)
    (h : (f i).err = some e) :
    retryLoop f (m + 1 + 1) i =
      ⟨(retryLoop f (m + 1) (i + 1)).conn, (retryLoop f (m + 1) (i + 1)).err,
       (f i).events ++ (retryLoop f (m + 1) (i + 1)).events⟩ := by
  rw [retryLoop.eq_def]
  split
  · omega
  · rename_i fuel heq
    have hf : fuel = m + 1 := by omega
    subst hf
    rw [h]

lemma retryLoop_last_fail (f : Nat → ConnRes) :
    ∀ m i, (∀ j, j ≤ m → (f (i + j)).err ≠ none) →
      retryLoop f (m + 1) i =
        ⟨(f (i + m)).conn, (f (i + m)).err, attemptTraces f (m + 1) i⟩ := by
  intro m
  induction m with
  | zero =>
    intro i _
    rw [retryLoop_one]
    simp only [attemptTraces, Nat.add_zero, List.append_nil]
  | succ m ih =>
    intro i h
    have h0 : (f i).err ≠ none := by simpa using h 0 (Nat.zero_le _)
    cases he : (f i).err with
    | none => exact absurd he h0
    | some e =>
      rw [retryLoop_succ_fail f m i e he]
      have hrec := ih (i + 1) (fun j hj => by
        have := h (j + 1) (by omega)
        simpa [Nat.add_assoc, Nat.add_comm 1 j] using this)
      rw [hrec]
      have hidx : i + 1 + m = i + (m + 1) := by omega
      simp only [attemptTraces, hidx]

lemma retryLoop_first_success (f : Nat → ConnRes) :
    ∀ j fuel i, j < fuel → (∀ j', j' < j → (f (i + j')).err ≠ none) →
      (f (i + j)).err = none →
      retryLoop f fuel i = ⟨(f (i + j)).conn, none, attemptTraces f (j + 1) i⟩ := by
  intro j
  induction j with
  | zero =>
    intro fuel i hlt _ hok
    simp only [Nat.add_zero] at hok
    cases fuel with
    | zero => omega
    | succ m =>
      cases m with
      | zero =>
        rw [retryLoop_one]
        simp only [attemptTraces, Nat.add_zero, List.append_nil]
        rw [← hok]
      | succ m' =>
        rw [retryLoop_succ_ok f m' i hok]
        simp only [attemptTraces, Nat.add_zero, List.append_nil]
        rw [← hok]
  | succ j ih =>
    intro fuel i hlt hfail hok
    cases fuel with
    | zero => omega
    | succ m =>
      have h0 : (f i).err ≠ none := by simpa using hfail 0 (Nat.succ_pos j)
      cases m with
      | zero => omega
      | succ m' =>
        cases he : (f i).err with
        | none => exact absurd he h0
        | some e =>
          rw [retryLoop_succ_fail f m' i e he]
          have hrec := ih (m' + 1) (i + 1) (by omega)
            (fun j' hj' => by
              have := hfail (j' + 1) (by omega)
              simpa [Nat.add_assoc, Nat.add_comm 1 j'] using this)
            (by simpa [Nat.add_assoc, Nat.add_comm 1 j] using hok)
          rw [hrec]
          have hidx : i + 1 + j = i + (j + 1) := by omega
          simp only [attemptTraces, hidx]

lemma retryLoop_err_conn (f : Nat → ConnRes)
    (hf : ∀ i, (f i).err ≠ none → (f i).conn = none) :
    ∀ fuel i, (retryLoop f fuel i).err ≠ none → (retryLoop f fuel i).conn = none := by
  intro fuel
  induction fuel with
  | zero => intro i h; exact absurd rfl h
  | succ m ih =>
    intro i h
    cases m with
    | zero =>
      rw [retryLoop_one] at h ⊢
      exact hf i h
    | succ m' =>
      cases he : (f i).err with
      | none =>
        rw [retryLoop_succ_ok f m' i he] at h
        exact absurd he h
      | some e =>
        rw [retryLoop_succ_fail f m' i e he] at h ⊢
        exact ih (i + 1) h

lemma attemptTraces_count (f : Nat → ConnRes) (ev : Event)
    (hf : ∀ i, ((f i).events).count ev = 1) :
    ∀ fuel i, (attemptTraces f fuel i).count ev = fuel := by
  intro fuel
  induction fuel with
  | zero => intro i; simp [attemptTraces]
  | succ m ih =>
    intro i
    simp only [attemptTraces, List.count_append, hf, ih]
    omega

lemma attemptTraces_nil (f : Nat → ConnRes) (hf : ∀ i, (f i).events = []) :
    ∀ fuel i, attemptTraces f fuel i = [] := by
  intro fuel
  induction fuel with
  | zero => intro i; rfl
  | succ m ih => intro i; simp [attemptTraces, hf, ih]

/-!
Helper lemmas about the trace observers.
-/

lemma healthAfter_nil (nid : Nat) : healthAfter [] nid = none := rfl

lemma healthAfter_cons (e : Event) (l : List Event) (nid : Nat) :
    healthAfter (e :: l) nid = (healthAfter l nid).orElse fun _ => healthStep nid e := rfl

lemma foldr_health_some (nid : Nat) (v : Bool) (l : List Event) :
    l.foldr (fun e s => s.orElse fun _ => healthStep nid e) (some v) = some v := by
  induction l with
  | nil => rfl
  | cons e l ih =>
    simp only [List.foldr_cons, ih]
    rfl

lemma healthAfter_append (l1 l2 : List Event) (nid : Nat) :
    healthAfter (l1 ++ l2) nid =
      match healthAfter l2 nid with
      | some v => some v
      | none => healthAfter l1 nid := by
  simp only [healthAfter, List.foldr_append]
  cases h : l2.foldr (fun e s => s.orElse fun _ => healthStep nid e) none with
  | some v => simp [foldr_health_some]
  | none => rfl

lemma healthAfter_no_mark (nid : Nat) :
    ∀ l, (∀ i, Event.markDead i ∈ l → i ≠ nid) →
      healthAfter l nid = if Event.resetDead nid ∈ l then some false else none := by
  intro l
  induction l with
  | nil => intro _; rfl
  | cons e l ih =>
    intro h
    have hl := ih fun i hi => h i (List.mem_cons_of_mem e hi)
    rw [healthAfter_cons, hl]
    by_cases hr : Event.resetDead nid ∈ l
    · simp [hr, Option.orElse]
    · simp only [hr, if_false]
      cases e with
      | markDead i =>
        have : i ≠ nid := h i (List.mem_cons_self _ _)
        simp [healthStep, this, Option.orElse, List.mem_cons, hr]
      | resetDead i =>
        by_cases hi : i = nid
        · subst hi
          simp [healthStep, Option.orElse, List.mem_cons, hr]
        · have hi2 : ¬nid = i := fun h' => hi h'.symm
          simp [healthStep, hi, hi2, Option.orElse, List.mem_cons, hr]
      | next g => simp [healthStep, Option.orElse, List.mem_cons, hr]
      | dial i => simp [healthStep, Option.orElse, List.mem_cons, hr]
      | handshake i => simp [healthStep, Option.orElse, List.mem_cons, hr]
      | connect p a => simp [healthStep, Option.orElse, List.mem_cons, hr]
      | close k => simp [healthStep, Option.orElse, List.mem_cons, hr]
      | netDial a t => simp [healthStep, Option.orElse, List.mem_cons, hr]

lemma okEvents_no_mark (i : Nat) : ∀ pre l, Event.markDead i ∉ okEvents pre l := by
  intro pre l
  induction l generalizing pre with
  | nil => simp [okEvents]
  | cons n ns ih =>
    simp only [okEvents, List.mem_cons, not_or]
    exact ⟨by simp, by simp, by simp, ih n⟩

lemma okEvents_reset_mem : ∀ pre l (n : Node), n ∈ l →
    Event.resetDead n.id ∈ okEvents pre l := by
  intro pre l
  induction l generalizing pre with
  | nil => intro n h; simp at h
  | cons m ms ih =>
    intro n h
    rcases List.mem_cons.mp h with h | h
    · subst h
      simp [okEvents]
    · simp only [okEvents, List.mem_cons]
      exact Or.inr (Or.inr (Or.inr (ih m n h)))

lemma okEvents_touches : ∀ pre l (m : Node),
    (∀ x ∈ pre :: l, m.id ≠ x.id ∧ m.addr ≠ x.addr) →
    ∀ e ∈ okEvents pre l, e.touches m = false := by
  intro pre l
  induction l generalizing pre with
  | nil => intro m _ e he; simp [okEvents] at he
  | cons n ns ih =>
    intro m h e he
    have hpre := h pre (List.mem_cons_self _ _)
    have hn := h n (List.mem_cons_of_mem _ (List.mem_cons_self _ _))
    simp only [okEvents, List.mem_cons] at he
    rcases he with he | he | he | he
    · subst he
      simp only [Event.touches, Bool.or_eq_false_iff, beq_eq_false_iff_ne]
      exact ⟨fun h' => hpre.1 h'.symm, fun h' => hn.2 h'.symm⟩
    · subst he
      simp only [Event.touches, beq_eq_false_iff_ne]
      exact fun h' => hn.1 h'.symm
    · subst he
      simp only [Event.touches, beq_eq_false_iff_ne]
      exact fun h' => hn.1 h'.symm
    · exact ih n m (fun x hx => h x (List.mem_cons_of_mem _ hx)) e he

lemma lastD_mem : ∀ (l : List Node) (pre : Node), lastD pre l ∈ pre :: l := by
  intro l
  induction l with
  | nil => intro pre; simp [lastD]
  | cons n ns ih =>
    intro pre
    rcases List.mem_cons.mp (ih n) with h | h
    · rw [lastD, h]
      simp
    · simp only [lastD, List.mem_cons]
      exact Or.inr (Or.inr h)

lemma groups_ne_nil_not_empty (c : Chain) (h : c.nodeGroups ≠ []) : c.IsEmpty = false := by
  cases c with
  | mk ir r gs =>
    cases gs with
    | nil => exact absurd rfl h
    | cons g gs => rfl

lemma healthAfter_snoc_mark (l : List Event) (nid : Nat) :
    healthAfter (l ++ [Event.markDead nid]) nid = some true := by
  rw [healthAfter_append]
  simp [healthAfter, healthStep]

/-!
The claims.
-/

/-- C6: resolving a chain already marked as a resolved route returns that
same chain unchanged with a nil error: no group selection is invoked and no
event (health mutation, dial-option change) is produced. -/
theorem selectRoute_resolved_identity (o : Oracle) (c : Chain) (h : c.isRoute = true) :
    c.selectRoute o = ⟨some c, none, []⟩ :=
  selectRoute_resolved o c h

theorem selectRoute_resolved_identity_witness :
    rSingle.selectRoute oAllOK = ⟨some rSingle, none, []⟩ :=
  selectRoute_resolved_identity oAllOK rSingle rfl

/-- C7: on an empty chain, `Dial` performs exactly one direct network dial
to the address with the fixed default dial timeout and returns its result:
the trace is that single event (no group or hop method, no retry), the
error is the direct dial's error, and the connection is returned exactly
when the direct dial succeeds. -/
theorem dial_empty_direct (os : Nat → Oracle) (c : Chain) (addr : Nat)
    (h : c.nodeGroups = []) :
    (c.Dial os addr).events = [Event.netDial addr DialTimeout] ∧
    (c.Dial os addr).err = (os 0).netDial addr ∧
    ((os 0).netDial addr = none → (c.Dial os addr).conn = some 0) ∧
    ((os 0).netDial addr ≠ none → (c.Dial os addr).conn = none) := by
  have he : c.IsEmpty = true := by
    cases c with
    | mk ir r gs =>
      simp only [Chain.nodeGroups] at h
      subst h
      rfl
  simp only [Chain.Dial, he, if_true]
  cases hn : (os 0).netDial addr with
  | some e => simp
  | none => simp

theorem dial_empty_direct_witness :
    (cEmpty.Dial osAllOK 7).events = [Event.netDial 7 DialTimeout] ∧
    (cEmpty.Dial osAllOK 7).err = (osAllOK 0).netDial 7 ∧
    ((osAllOK 0).netDial 7 = none → (cEmpty.Dial osAllOK 7).conn = some 0) ∧
    ((osAllOK 0).netDial 7 ≠ none → (cEmpty.Dial osAllOK 7).conn = none) :=
  dial_empty_direct osAllOK cEmpty 7 rfl

/-- C8: `getConn` on an empty route returns a nil connection and the
distinguished `ErrEmptyChain` with an empty trace (no hop operation), and
consequently `Conn` on an empty chain with a non-negative retry budget
returns `ErrEmptyChain`. -/
theorem getConn_empty_err (o : Oracle) (os : Nat → Oracle) (cid : Nat) (c : Chain)
    (h : c.nodeGroups = []) :
    c.getConn o cid = ⟨none, some GErr.emptyChain, []⟩ ∧
    (0 ≤ c.retries → c.Conn os = ⟨none, some GErr.emptyChain, []⟩) := by
  have he : c.IsEmpty = true := by
    cases c with
    | mk ir r gs =>
      simp only [Chain.nodeGroups] at h
      subst h
      rfl
  refine ⟨by simp [Chain.getConn, he], ?_⟩
  intro hr
  have hatt : ∀ i, c.connAttempt os i = ⟨none, some GErr.emptyChain, []⟩ := by
    intro i
    cases c with
    | mk ir r gs =>
      simp only [Chain.nodeGroups] at h
      subst h
      cases ir <;>
        simp [Chain.connAttempt, Chain.connOnce, Chain.selectRoute, Chain.isRoute,
          Chain.retries, Chain.nodeGroups, selectRouteLoop, Chain.getConn,
          Chain.IsEmpty, newRoute]
  have hm : (c.retries + 1).toNat = c.retries.toNat + 1 := by omega
  rw [Chain.Conn, hm]
  rw [retryLoop_last_fail (c.connAttempt os) c.retries.toNat 0
    (fun j _ => by rw [hatt]; simp)]
  rw [hatt, attemptTraces_nil _ (fun i => by rw [hatt]) (c.retries.toNat + 1) 0]

theorem getConn_empty_err_witness :
    cEmpty.getConn oAllOK 0 = ⟨none, some GErr.emptyChain, []⟩ ∧
    (0 ≤ cEmpty.retries → cEmpty.Conn osAllOK = ⟨none, some GErr.emptyChain, []⟩) :=
  getConn_empty_err oAllOK osAllOK 0 cEmpty rfl

/-- C10: on a non-empty chain with a negative retry budget, the loop bound
`Retries + 1` is not clamped up, so `Dial` and `Conn` execute zero attempts
(empty trace: no selection, no dial, no handshake) and return a nil
connection together with a nil error. -/
theorem negative_retries_no_attempts (os : Nat → Oracle) (c : Chain) (addr : Nat)
    (hne : c.nodeGroups ≠ []) (hr : c.retries < 0) :
    c.Dial os addr = ⟨none, none, []⟩ ∧ c.Conn os = ⟨none, none, []⟩ := by
  have hfuel : (c.retries + 1).toNat = 0 := by omega
  have he : c.IsEmpty = false := groups_ne_nil_not_empty c hne
  constructor
  · simp only [Chain.Dial, he, Bool.false_eq_true, if_false, hfuel]
    rfl
  · simp only [Chain.Conn, hfuel]
    rfl

theorem negative_retries_no_attempts_witness :
    cNeg.Dial osAllOK 7 = ⟨none, none, []⟩ ∧ cNeg.Conn osAllOK = ⟨none, none, []⟩ :=
  negative_retries_no_attempts osAllOK cNeg 7 (by simp [cNeg, Chain.nodeGroups]) (by decide)

/-- C1 (counterexample): with `G0 = {hopA}` multiplexing and `G1 = {hopB}`,
`selectRoute` does not produce the route `[hopB]` with the sealed segment
in `hopB`'s dial options: the resolved route has two hops (`hopA` then
`hopB`), `hopA` carries the appended `ChainDialOption` (one option), and
`hopB`'s dial options are untouched (zero options). -/
theorem multiplex_cutover_counterexample :
    (((cMux.selectRoute oAllOK).route.getD (Chain.mk false 0 [])).Nodes.length = 2) ∧
    ((((cMux.selectRoute oAllOK).route.getD (Chain.mk false 0 [])).Nodes.map
        fun n => n.dialOptions.length) = [1, 0]) :=
  ⟨rfl, rfl⟩

/-- C1 (amended): for a two-group chain `[[a], [b]]` whose first selected
hop `a` is multiplexing and whose second `b` is not, `selectRoute` resolves
to the route `[a, b]` in which `a` — the multiplexing hop itself, not `b` —
carries the `ChainDialOption` referencing the sealed segment built before
it (here the empty route), and `b`'s dial options are unchanged. -/
theorem multiplex_cutover_amended (r : Int) (a b : Node) (o : Oracle)
    (ha : a.multiplex = true) (hb : b.multiplex = false)
    (h0 : o.next 0 [a] = Except.ok a) (h1 : o.next 1 [b] = Except.ok b) :
    Chain.selectRoute o (Chain.mk false r [[a], [b]]) =
      ⟨some (Chain.mk true r [[a.appendOption (DialOption.chainOpt (newRoute r))], [b]]),
       none, [Event.next 0, Event.next 1]⟩ := by
  simp [Chain.selectRoute, Chain.isRoute, Chain.retries, Chain.nodeGroups,
    selectRouteLoop, h0, h1, ha, hb, newRoute, Chain.AddNode]

theorem multiplex_cutover_amended_witness :
    Chain.selectRoute oAllOK (Chain.mk false 0 [[hopA], [hopB]]) =
      ⟨some (Chain.mk true 0 [[hopA.appendOption (DialOption.chainOpt (newRoute 0))], [hopB]]),
       none, [Event.next 0, Event.next 1]⟩ :=
  multiplex_cutover_amended 0 hopA hopB oAllOK rfl rfl rfl rfl

/-- C2 (counterexample): a handshake failure on the first hop's freshly
dialed connection returns the error without closing that connection: the
trace shows the dial (connection established), the failed handshake and the
health mark, but contains no close event. -/
theorem first_hop_handshake_no_close :
    rSingle.getConn oHsFail 0 =
      ⟨none, some (GErr.ext 5),
       [Event.dial 1, Event.handshake 1, Event.markDead 1]⟩ ∧
    ((rSingle.getConn oHsFail 0).events.countP fun e => e.isClose) = 0 :=
  ⟨rfl, rfl⟩

/-- C2 (amended): failures in the connect-through loop (hops after the
first) always close the in-progress connection before returning the error,
and so does a failure of the final connect-through of `dial` after a
successful build; however a handshake failure on the first hop's freshly
dialed connection returns the error without closing that connection; and
no operation (`getConn`, `Dial`, `Conn`) ever returns a non-nil connection
together with a non-nil error. -/
theorem connection_cleanup_amended :
    (∀ (o : Oracle) (cid : Nat) (pre : Node) (ns : List Node),
      (connLoop o cid pre ns).err ≠ none →
      Event.close cid ∈ (connLoop o cid pre ns).events) ∧
    (∀ (o : Oracle) (cid : Nat) (c : Chain) (addr : Nat),
      (c.selectRoute o).err = none →
      (((c.selectRoute o).route.getD (Chain.mk false 0 [])).getConn o cid).err = none →
      o.connect ((c.selectRoute o).route.getD (Chain.mk false 0 [])).LastNode.id addr ≠ none →
      (c.dialOnce o cid addr).err ≠ none ∧
        Event.close cid ∈ (c.dialOnce o cid addr).events) ∧
    (∀ (o : Oracle) (cid : Nat) (c : Chain) (n : Node) (rest : List Node) (e : GErr),
      c.Nodes = n :: rest → o.dial n.id = none → o.handshake n.id = some e →
      c.getConn o cid =
        ⟨none, some e, [Event.dial n.id, Event.handshake n.id, Event.markDead n.id]⟩) ∧
    (∀ (o : Oracle) (cid : Nat) (c : Chain),
      (c.getConn o cid).err ≠ none → (c.getConn o cid).conn = none) ∧
    (∀ (os : Nat → Oracle) (c : Chain) (addr : Nat),
      (c.Dial os addr).err ≠ none → (c.Dial os addr).conn = none) ∧
    (∀ (os : Nat → Oracle) (c : Chain),
      (c.Conn os).err ≠ none → (c.Conn os).conn = none) := by
  refine ⟨connLoop_err_close, ?_, ?_, ?_, ?_, ?_⟩
  · intro o cid c addr hsr hg hc
    have hconn : (((c.selectRoute o).route.getD (Chain.mk false 0 [])).getConn o cid).conn
        = some cid := (getConn_err_iff_conn o cid _).1 hg
    cases hcc : o.connect ((c.selectRoute o).route.getD
        (Chain.mk false 0 [])).LastNode.id addr with
    | none => exact absurd hcc hc
    | some e =>
      simp only [Chain.dialOnce, hsr, hg, hconn, hcc]
      simp
  · intro o cid c n rest e hn hd hh
    have hne : c.IsEmpty = false := Nodes_ne_nil_not_empty c (by simp [hn])
    simp only [Chain.getConn, hne, Bool.false_eq_true, if_false, hn, hd, hh]
  · intro o cid c
    exact (getConn_err_iff_conn o cid c).2
  · intro os c addr h
    by_cases he : c.IsEmpty = true
    · simp only [Chain.Dial, he, if_true] at h ⊢
      cases hn : (os 0).netDial addr with
      | some e => simp [hn]
      | none => rw [hn] at h; simp at h
    · have he' : c.IsEmpty = false := by simpa using he
      simp only [Chain.Dial, he', Bool.false_eq_true, if_false] at h ⊢
      exact retryLoop_err_conn _ (fun i => dialOnce_err_conn (os i) i c addr) _ 0 h
  · intro os c h
    simp only [Chain.Conn] at h ⊢
    exact retryLoop_err_conn _ (fun i => connOnce_err_conn (os i) i c) _ 0 h

theorem connection_cleanup_amended_witness :
    Event.close 5 ∈ (connLoop oConnFail 5 (Node.mk 2 20 false [])
      [Node.mk 3 30 false []]).events :=
  connection_cleanup_amended.1 oConnFail 5 (Node.mk 2 20 false [])
    [Node.mk 3 30 false []] (by decide)

/-- C4: on a non-empty chain with retry budget `Retries = r ≥ 0`, both
`Dial` and `Conn` run at most `r + 1` attempts (the loop bound is exactly
`r.toNat + 1`): if some attempt `j ≤ r` is the first to succeed, the
result is that attempt's connection with a nil error and the trace stops
after attempt `j`; if every attempt fails, the result is the last
attempt's error (and no connection) with all `r + 1` attempt traces. -/
theorem retry_first_success_last_error (os : Nat → Oracle) (c : Chain) (addr : Nat)
    (hne : c.IsEmpty = false) (hr : 0 ≤ c.retries) :
    ((c.retries + 1).toNat = c.retries.toNat + 1) ∧
    ((∀ j, j ≤ c.retries.toNat → (c.dialAttempt os addr j).err ≠ none) →
      c.Dial os addr = ⟨none, (c.dialAttempt os addr c.retries.toNat).err,
        attemptTraces (c.dialAttempt os addr) (c.retries.toNat + 1) 0⟩) ∧
    (∀ j, j ≤ c.retries.toNat → (c.dialAttempt os addr j).err = none →
      (∀ i, i < j → (c.dialAttempt os addr i).err ≠ none) →
      c.Dial os addr = ⟨(c.dialAttempt os addr j).conn, none,
        attemptTraces (c.dialAttempt os addr) (j + 1) 0⟩) ∧
    ((∀ j, j ≤ c.retries.toNat → (c.connAttempt os j).err ≠ none) →
      c.Conn os = ⟨none, (c.connAttempt os c.retries.toNat).err,
        attemptTraces (c.connAttempt os) (c.retries.toNat + 1) 0⟩) ∧
    (∀ j, j ≤ c.retries.toNat → (c.connAttempt os j).err = none →
      (∀ i, i < j → (c.connAttempt os i).err ≠ none) →
      c.Conn os = ⟨(c.connAttempt os j).conn, none,
        attemptTraces (c.connAttempt os) (j + 1) 0⟩) := by
  have hm : (c.retries + 1).toNat = c.retries.toNat + 1 := by omega
  refine ⟨hm, ?_, ?_, ?_, ?_⟩
  · intro hfail
    simp only [Chain.Dial, hne, Bool.false_eq_true, if_false, hm]
    rw [retryLoop_last_fail (c.dialAttempt os addr) c.retries.toNat 0
      (fun j hj => by simpa using hfail j hj)]
    simp only [Nat.zero_add]
    have hdc : (c.dialAttempt os addr c.retries.toNat).conn = none :=
      dialOnce_err_conn (os c.retries.toNat) c.retries.toNat c addr
        (hfail c.retries.toNat (Nat.le_refl _))
    rw [hdc]
  · intro j hj hok hfail
    simp only [Chain.Dial, hne, Bool.false_eq_true, if_false, hm]
    rw [retryLoop_first_success (c.dialAttempt os addr) j (c.retries.toNat + 1) 0
      (by omega) (fun i hi => by simpa using hfail i hi) (by simpa using hok)]
    simp only [Nat.zero_add]
  · intro hfail
    simp only [Chain.Conn, hm]
    rw [retryLoop_last_fail (c.connAttempt os) c.retries.toNat 0
      (fun j hj => by simpa using hfail j hj)]
    simp only [Nat.zero_add]
    have hdc : (c.connAttempt os c.retries.toNat).conn = none :=
      connOnce_err_conn (os c.retries.toNat) c.retries.toNat c
        (hfail c.retries.toNat (Nat.le_refl _))
    rw [hdc]
  · intro j hj hok hfail
    simp only [Chain.Conn, hm]
    rw [retryLoop_first_success (c.connAttempt os) j (c.retries.toNat + 1) 0
      (by omega) (fun i hi => by simpa using hfail i hi) (by simpa using hok)]
    simp only [Nat.zero_add]

theorem retry_first_success_last_error_witness :
    cRetry.Dial osThird 7 = ⟨(cRetry.dialAttempt osThird 7 2).conn, none,
      attemptTraces (cRetry.dialAttempt osThird 7) 3 0⟩ :=
  (retry_first_success_last_error osThird cRetry 7 rfl (by decide)).2.2.1 2
    (by decide) (by decide) (by decide)

/-- C5: on a non-empty unresolved chain, both `Dial` and `Conn` re-run
route resolution on every retry attempt: counting the `Next` selections of
the first group (one per resolution), every attempt that runs — all
`r + 1` of them when every attempt fails, the first `j + 1` when attempt
`j` is the first success — contributes exactly one resolution to the
trace, each against the collaborator state of that attempt. -/
theorem reresolve_each_attempt (os : Nat → Oracle) (c : Chain) (addr : Nat)
    (g : List Node) (gs : List (List Node))
    (h1 : c.isRoute = false) (h2 : c.nodeGroups = g :: gs) (hr : 0 ≤ c.retries) :
    ((∀ j, j ≤ c.retries.toNat → (c.dialAttempt os addr j).err ≠ none) →
      ((c.Dial os addr).events).count (Event.next 0) = c.retries.toNat + 1) ∧
    (∀ j, j ≤ c.retries.toNat → (c.dialAttempt os addr j).err = none →
      (∀ i, i < j → (c.dialAttempt os addr i).err ≠ none) →
      ((c.Dial os addr).events).count (Event.next 0) = j + 1) ∧
    ((∀ j, j ≤ c.retries.toNat → (c.connAttempt os j).err ≠ none) →
      ((c.Conn os).events).count (Event.next 0) = c.retries.toNat + 1) ∧
    (∀ j, j ≤ c.retries.toNat → (c.connAttempt os j).err = none →
      (∀ i, i < j → (c.connAttempt os i).err ≠ none) →
      ((c.Conn os).events).count (Event.next 0) = j + 1) := by
  have hne : c.IsEmpty = false := groups_ne_nil_not_empty c (by simp [h2])
  have hm : (c.retries + 1).toNat = c.retries.toNat + 1 := by omega
  have hcntD : ∀ i, ((c.dialAttempt os addr i).events).count (Event.next 0) = 1 :=
    fun i => dialOnce_count_next0 (os i) i c addr g gs h1 h2
  have hcntC : ∀ i, ((c.connAttempt os i).events).count (Event.next 0) = 1 :=
    fun i => connOnce_count_next0 (os i) i c g gs h1 h2
  refine ⟨?_, ?_, ?_, ?_⟩
  · intro hfail
    simp only [Chain.Dial, hne, Bool.false_eq_true, if_false, hm]
    rw [retryLoop_last_fail (c.dialAttempt os addr) c.retries.toNat 0
      (fun j hj => by simpa using hfail j hj)]
    exact attemptTraces_count _ _ hcntD (c.retries.toNat + 1) 0
  · intro j hj hok hfail
    simp only [Chain.Dial, hne, Bool.false_eq_true, if_false, hm]
    rw [retryLoop_first_success (c.dialAttempt os addr) j (c.retries.toNat + 1) 0
      (by omega) (fun i hi => by simpa using hfail i hi) (by simpa using hok)]
    exact attemptTraces_count _ _ hcntD (j + 1) 0
  · intro hfail
    simp only [Chain.Conn, hm]
    rw [retryLoop_last_fail (c.connAttempt os) c.retries.toNat 0
      (fun j hj => by simpa using hfail j hj)]
    exact attemptTraces_count _ _ hcntC (c.retries.toNat + 1) 0
  · intro j hj hok hfail
    simp only [Chain.Conn, hm]
    rw [retryLoop_first_success (c.connAttempt os) j (c.retries.toNat + 1) 0
      (by omega) (fun i hi => by simpa using hfail i hi) (by simpa using hok)]
    exact attemptTraces_count _ _ hcntC (j + 1) 0

theorem reresolve_each_attempt_witness :
    ((cRetry.Dial osFailAll 7).events).count (Event.next 0) = 3 :=
  (reresolve_each_attempt osFailAll cRetry 7 [Node.mk 1 10 false []] [] rfl rfl
    (by decide)).1 (by decide)

/-- C9: a chain marked as a resolved route contains only singleton groups:
a fresh route has no groups, `AddNode` wraps each hop in a fresh singleton
group (preserving the invariant), a resolved route is returned as-is by
`selectRoute` (never re-resolved), and any route produced by resolving an
unresolved chain is marked resolved and has only singleton groups. -/
theorem resolved_route_singleton_invariant (o : Oracle) (c rt : Chain) (n : Node) (r : Int) :
    (singletonGroups (newRoute r) = true) ∧
    (singletonGroups rt = true → singletonGroups (rt.AddNode n) = true) ∧
    (c.isRoute = true → c.selectRoute o = ⟨some c, none, []⟩) ∧
    (c.isRoute = false → (c.selectRoute o).route = some rt →
      rt.isRoute = true ∧ singletonGroups rt = true) := by
  refine ⟨rfl, AddNode_singleton rt n, selectRoute_resolved o c, ?_⟩
  intro h1 h2
  simp only [Chain.selectRoute, h1, Bool.false_eq_true, if_false] at h2
  exact selectRouteLoop_route_inv o c.retries c.nodeGroups (newRoute c.retries) 0 rt h2 rfl rfl

theorem resolved_route_singleton_invariant_witness :
    (Chain.mk true 0 [[Node.mk 1 10 true [DialOption.chainOpt (Chain.mk true 0 [])]],
      [Node.mk 2 20 false []]]).isRoute = true ∧
    singletonGroups (Chain.mk true 0
      [[Node.mk 1 10 true [DialOption.chainOpt (Chain.mk true 0 [])]],
       [Node.mk 2 20 false []]]) = true :=
  (resolved_route_singleton_invariant oAllOK cMux
      (Chain.mk true 0 [[Node.mk 1 10 true [DialOption.chainOpt (Chain.mk true 0 [])]],
        [Node.mk 2 20 false []]]) hopB 0).2.2.2 rfl rfl

/-- C3: when `getConn` on a non-empty route fails at hop index `i > 0`
(the hop `nbad` after the successful prefix `n0 :: good`), exactly that hop
is marked dead (its final health is dead, while every earlier hop with a
distinct id keeps its reset state), the in-progress connection is closed,
the error is returned immediately with no connection, and no hop after
index `i` (any hop of `after` with fresh id and address) is contacted. -/
theorem midchain_failure_isolation (o : Oracle) (cid : Nat) (c : Chain)
    (n0 : Node) (good : List Node) (nbad : Node) (after : List Node)
    (hns : c.Nodes = n0 :: (good ++ nbad :: after))
    (hd : o.dial n0.id = none) (hh : o.handshake n0.id = none)
    (hgood : pathOK o n0 good = true)
    (hbad : o.connect (lastD n0 good).id nbad.addr ≠ none ∨
      (o.connect (lastD n0 good).id nbad.addr = none ∧ o.handshake nbad.id ≠ none)) :
    (c.getConn o cid).err ≠ none ∧
    (c.getConn o cid).conn = none ∧
    Event.close cid ∈ (c.getConn o cid).events ∧
    healthAfter (c.getConn o cid).events nbad.id = some true ∧
    (∀ n ∈ n0 :: good, n.id ≠ nbad.id →
      healthAfter (c.getConn o cid).events n.id = some false) ∧
    (∀ m ∈ after, (∀ x ∈ n0 :: (good ++ [nbad]), m.id ≠ x.id ∧ m.addr ≠ x.addr) →
      ∀ e ∈ (c.getConn o cid).events, e.touches m = false) := by
  obtain ⟨e, mid, htail, hmidcases⟩ :
      ∃ e mid, connLoop o cid (lastD n0 good) (nbad :: after) =
        ⟨none, some e, Event.connect (lastD n0 good).id nbad.addr ::
          (mid ++ [Event.close cid, Event.markDead nbad.id])⟩ ∧
        (mid = [] ∨ mid = [Event.handshake nbad.id]) := by
    rcases hbad with hc | ⟨hc, hhb⟩
    · cases hcc : o.connect (lastD n0 good).id nbad.addr with
      | none => exact absurd hcc hc
      | some e =>
        refine ⟨e, [], ?_, Or.inl rfl⟩
        simp [connLoop, hcc]
    · cases hhc : o.handshake nbad.id with
      | none => exact absurd hhc hhb
      | some e =>
        refine ⟨e, [Event.handshake nbad.id], ?_, Or.inr rfl⟩
        simp [connLoop, hc, hhc]
  have hget : c.getConn o cid =
      ⟨none, some e, Event.dial n0.id :: Event.handshake n0.id :: Event.resetDead n0.id ::
        (okEvents n0 good ++ (Event.connect (lastD n0 good).id nbad.addr ::
          (mid ++ [Event.close cid, Event.markDead nbad.id])))⟩ := by
    rw [getConn_firstOK o cid c n0 (good ++ nbad :: after) hns hd hh,
      connLoop_prefix o cid good n0 (nbad :: after) hgood, htail]
  have hmark : ∀ i, Event.markDead i ∈ (c.getConn o cid).events → i = nbad.id := by
    intro i hi
    rw [hget] at hi
    simp only [List.mem_cons, List.mem_append] at hi
    rcases hi with hi | hi | hi | hi | hi | hi
    · exact absurd hi (by simp)
    · exact absurd hi (by simp)
    · exact absurd hi (by simp)
    · exact absurd hi (okEvents_no_mark i n0 good)
    · exact absurd hi (by simp)
    · rcases hi with hi | hi
      · rcases hmidcases with hmc | hmc <;> rw [hmc] at hi <;> simp at hi
      · simp only [List.mem_cons, List.not_mem_nil, or_false] at hi
        rcases hi with hi | hi
        · exact absurd hi (by simp)
        · injection hi
  refine ⟨by rw [hget]; simp, by rw [hget], by rw [hget]; simp, ?_, ?_, ?_⟩
  · rw [hget]
    have hsh : Event.dial n0.id :: Event.handshake n0.id :: Event.resetDead n0.id ::
        (okEvents n0 good ++ (Event.connect (lastD n0 good).id nbad.addr ::
          (mid ++ [Event.close cid, Event.markDead nbad.id]))) =
        (Event.dial n0.id :: Event.handshake n0.id :: Event.resetDead n0.id ::
          (okEvents n0 good ++ (Event.connect (lastD n0 good).id nbad.addr ::
            (mid ++ [Event.close cid])))) ++ [Event.markDead nbad.id] := by
      simp
    simp only
    rw [hsh, healthAfter_snoc_mark]
  · intro n hn hne
    have hres : Event.resetDead n.id ∈ (c.getConn o cid).events := by
      rw [hget]
      rcases List.mem_cons.mp hn with h | h
      · rw [h]
        simp
      · simp only [List.mem_cons, List.mem_append]
        exact Or.inr (Or.inr (Or.inr (Or.inl (okEvents_reset_mem n0 good n h))))
    rw [healthAfter_no_mark n.id (c.getConn o cid).events
      (fun i hi => by rw [hmark i hi]; exact fun h' => hne h'.symm), if_pos hres]
  · intro m hmaf hdist ev hev
    have hnb : m.id ≠ nbad.id ∧ m.addr ≠ nbad.addr := hdist nbad (by simp)
    have hd2 : ∀ x ∈ n0 :: good, m.id ≠ x.id ∧ m.addr ≠ x.addr := by
      intro x hx
      refine hdist x ?_
      rcases List.mem_cons.mp hx with h | h
      · simp [h]
      · simp only [List.mem_cons, List.mem_append]
        exact Or.inr (Or.inl h)
    rw [hget] at hev
    simp only [List.mem_cons, List.mem_append] at hev
    have hn0 := hd2 n0 (List.mem_cons_self _ _)
    rcases hev with hev | hev | hev | hev | hev | hev
    · rw [hev]
      simp only [Event.touches, beq_eq_false_iff_ne]
      exact fun h' => hn0.1 h'.symm
    · rw [hev]
      simp only [Event.touches, beq_eq_false_iff_ne]
      exact fun h' => hn0.1 h'.symm
    · rw [hev]
      simp only [Event.touches, beq_eq_false_iff_ne]
      exact fun h' => hn0.1 h'.symm
    · exact okEvents_touches n0 good m hd2 ev hev
    · rw [hev]
      have hpre := hd2 (lastD n0 good) (lastD_mem good n0)
      simp only [Event.touches, Bool.or_eq_false_iff, beq_eq_false_iff_ne]
      exact ⟨fun h' => hpre.1 h'.symm, fun h' => hnb.2 h'.symm⟩
    · rcases hev with hev | hev
      · rcases hmidcases with hmc | hmc <;> rw [hmc] at hev
        · simp at hev
        · simp only [List.mem_singleton] at hev
          rw [hev]
          simp only [Event.touches, beq_eq_false_iff_ne]
          exact fun h' => hnb.1 h'.symm
      · simp only [List.mem_cons, List.not_mem_nil, or_false] at hev
        rcases hev with hev | hev
        · rw [hev]
          rfl
        · rw [hev]
          simp only [Event.touches, beq_eq_false_iff_ne]
          exact fun h' => hnb.1 h'.symm

theorem midchain_failure_isolation_witness :
    (rFour.getConn oConnFail 9).err ≠ none ∧
    (rFour.getConn oConnFail 9).conn = none ∧
    Event.close 9 ∈ (rFour.getConn oConnFail 9).events ∧
    healthAfter (rFour.getConn oConnFail 9).events (Node.mk 3 30 false []).id = some true ∧
    (∀ n ∈ Node.mk 1 10 false [] :: [Node.mk 2 20 false []],
      n.id ≠ (Node.mk 3 30 false []).id →
      healthAfter (rFour.getConn oConnFail 9).events n.id = some false) ∧
    (∀ m ∈ [Node.mk 4 40 false []],
      (∀ x ∈ Node.mk 1 10 false [] :: ([Node.mk 2 20 false []] ++ [Node.mk 3 30 false []]),
        m.id ≠ x.id ∧ m.addr ≠ x.addr) →
      ∀ e ∈ (rFour.getConn oConnFail 9).events, e.touches m = false) :=
  midchain_failure_isolation oConnFail 9 rFour (Node.mk 1 10 false [])
    [Node.mk 2 20 false []] (Node.mk 3 30 false []) [Node.mk 4 40 false []]
    rfl rfl rfl (by decide) (Or.inl (by decide))

end Gost
